import Mathlib

/-!
Verification of the equivalent-water-height (EWH) kernel of
`pyfunc/plot_grav_field_libs.py` (with the filter-radius dispatch of
`example.py`).  Each Python function is embedded shallowly:

* spherical-harmonic coefficient rows are 4-tuples `(degree, order, C, S)`;
* dense numpy matrices indexed `[n][m]` become total functions `ℕ → ℕ → ℝ`
  (entries never written stay `0`, as `np.zeros` initialises them);
* `LoveNumbers` works over exact rationals (the reference table is decimal);
* the float arithmetic of the source is idealised as real arithmetic.
-/

open scoped BigOperators

namespace EWH

/-- One input row `(degree, order, C-value, S-value)` as read from a
coefficient file: `coeffisort` casts the first two fields with `int`. -/
abbrev Row := ℕ × ℕ × ℝ × ℝ

/-- Degree of a row (`row[0]`). -/
def Row.deg (r : Row) : ℕ := r.1

/-- Order of a row (`row[1]`). -/
def Row.ord (r : Row) : ℕ := r.2.1

/-- Cosine coefficient of a row (`row[2]`). -/
def Row.cval (r : Row) : ℝ := r.2.2.1

/-- Sine coefficient of a row (`row[3]`). -/
def Row.sval (r : Row) : ℝ := r.2.2.2

/-- The `(degree, order)` placement key of a row. -/
def Row.key (r : Row) : ℕ × ℕ := (r.1, r.2.1)

/-- One numpy store `mat[i, j] = v` on a dense matrix viewed as a function. -/
def mupd (f : ℕ → ℕ → ℝ) (i j : ℕ) (v : ℝ) : ℕ → ℕ → ℝ :=
  fun a b => if a = i ∧ b = j then v else f a b

/-- The pair of stores `cnm[deg, ord] = C; snm[deg, ord] = S` done by one
loop iteration of `coeffisort`. -/
def coeffStep (p : (ℕ → ℕ → ℝ) × (ℕ → ℕ → ℝ)) (r : Row) :
    (ℕ → ℕ → ℝ) × (ℕ → ℕ → ℝ) :=
  (mupd p.1 r.deg r.ord r.cval, mupd p.2 r.deg r.ord r.sval)

/-- The loop of `coeffisort`: walk the rows, `break` at the first row whose
degree exceeds `maxdegree`, otherwise store both coefficients. -/
def coeffisortAux (maxdegree : ℕ) :
    List Row → (ℕ → ℕ → ℝ) × (ℕ → ℕ → ℝ) → (ℕ → ℕ → ℝ) × (ℕ → ℕ → ℝ)
  | [], p => p
  | r :: rest, p =>
    if maxdegree < r.deg then p else coeffisortAux maxdegree rest (coeffStep p r)

/-- `coeffisort(mat, maxdegree)`: sort spherical harmonic coefficient rows
into the dense triangular matrices `cnm`, `snm` (initialised by `np.zeros`). -/
def coeffisort (mat : List Row) (maxdegree : ℕ) :
    (ℕ → ℕ → ℝ) × (ℕ → ℕ → ℝ) :=
  coeffisortAux maxdegree mat (fun _ _ => 0, fun _ _ => 0)

theorem coeffisortAux_append_break (maxdegree : ℕ) (r : Row)
    (hr : maxdegree < r.deg) (pre post : List Row) :
    ∀ p, coeffisortAux maxdegree (pre ++ r :: post) p =
      coeffisortAux maxdegree pre p := by
  induction pre with
  | nil =>
    intro p
    simp [coeffisortAux, hr]
  | cons a l ih =>
    intro p
    by_cases ha : maxdegree < a.deg
    · simp [coeffisortAux, ha]
    · simpa [coeffisortAux, ha] using ih (coeffStep p a)

/-- C4: once a row with degree above `maxdegree` is reached, every later row
of the stream is ignored: the output equals the output on the strict prefix
before the first over-limit row. -/
theorem coeffisort_early_exit (maxdegree : ℕ) (pre post : List Row) (r : Row)
    (hr : maxdegree < r.deg) :
    coeffisort (pre ++ r :: post) maxdegree = coeffisort pre maxdegree :=
  coeffisortAux_append_break maxdegree r hr pre post _

/-- C4 witness: with `maxdegree = 2`, the in-bounds row `(2,1,5,5)` placed
after the over-limit row `(3,0,4,4)` is dropped. -/
theorem coeffisort_early_exit_witness :
    coeffisort ([((2 : ℕ), (0 : ℕ), (1 : ℝ), (0 : ℝ))] ++
        ((3 : ℕ), (0 : ℕ), (4 : ℝ), (4 : ℝ)) ::
        [((2 : ℕ), (1 : ℕ), (5 : ℝ), (5 : ℝ))]) 2 =
      coeffisort [((2 : ℕ), (0 : ℕ), (1 : ℝ), (0 : ℝ))] 2 :=
  coeffisort_early_exit 2 _ _ _ (by norm_num [Row.deg])

/-- The keep-condition of the `coeffisort` loop: the row degree is within
`maxdegree` (its negation is the `break` condition). -/
def degLE (maxdegree : ℕ) (r : Row) : Bool := r.deg ≤ maxdegree

theorem coeffisortAux_eq_foldl (maxdegree : ℕ) :
    ∀ (l : List Row) (p : (ℕ → ℕ → ℝ) × (ℕ → ℕ → ℝ)),
      coeffisortAux maxdegree l p =
        (l.takeWhile (degLE maxdegree)).foldl coeffStep p := by
  intro l
  induction l with
  | nil => intro p; rfl
  | cons r rest ih =>
    intro p
    by_cases hr : maxdegree < r.deg
    · have : degLE maxdegree r = false := by simp [degLE]; omega
      simp [coeffisortAux, hr, List.takeWhile_cons, this]
    · have : degLE maxdegree r = true := by simp [degLE]; omega
      simp [coeffisortAux, hr, List.takeWhile_cons, this, ih]

theorem takeWhile_eq_filter_of_sorted (maxdegree : ℕ) :
    ∀ l : List Row, l.Pairwise (fun a b => a.deg ≤ b.deg) →
      l.takeWhile (degLE maxdegree) = l.filter (degLE maxdegree) := by
  intro l
  induction l with
  | nil => intro _; rfl
  | cons r rest ih =>
    intro hpw
    obtain ⟨hhead, htail⟩ := List.pairwise_cons.mp hpw
    by_cases hr : degLE maxdegree r = true
    · simp [List.takeWhile_cons, List.filter_cons, hr, ih htail]
    · have hrest : rest.filter (degLE maxdegree) = [] := by
        rw [List.filter_eq_nil_iff]
        intro a ha
        have h1 : r.deg ≤ a.deg := hhead a ha
        simp [degLE] at hr ⊢
        omega
      simp only [Bool.not_eq_true] at hr
      simp [List.takeWhile_cons, List.filter_cons, hr, hrest]

theorem coeffStep_comm (p : (ℕ → ℕ → ℝ) × (ℕ → ℕ → ℝ)) (a b : Row)
    (hab : a.key ≠ b.key) :
    coeffStep (coeffStep p a) b = coeffStep (coeffStep p b) a := by
  have hne : ¬ (a.deg = b.deg ∧ a.ord = b.ord) := by
    intro hcon
    apply hab
    have hd : a.1 = b.1 := hcon.1
    have ho : a.2.1 = b.2.1 := hcon.2
    simp [Row.key, Prod.ext_iff, hd, ho]
  have hne2 : ¬ (b.deg = a.deg ∧ b.ord = a.ord) := fun hc =>
    hne ⟨hc.1.symm, hc.2.symm⟩
  refine Prod.ext ?_ ?_ <;> funext x y <;>
    simp only [coeffStep, mupd] <;>
    by_cases h1 : x = b.deg ∧ y = b.ord <;>
    by_cases h2 : x = a.deg ∧ y = a.ord
  all_goals
    first
      | (obtain ⟨ha1, ha2⟩ := h2
         obtain ⟨hb1, hb2⟩ := h1
         exact absurd ⟨ha1.symm.trans hb1, ha2.symm.trans hb2⟩ hne)
      | simp [h1, h2, hne, hne2]

theorem foldl_coeffStep_perm {l1 l2 : List Row} (hperm : l1.Perm l2) :
    (l1.map Row.key).Nodup →
      ∀ p, l1.foldl coeffStep p = l2.foldl coeffStep p := by
  induction hperm with
  | nil => intro _ p; rfl
  | cons x h ih =>
    intro hnodup p
    simp only [List.foldl_cons]
    exact ih (by simpa using hnodup.of_cons) (coeffStep p x)
  | swap x y l =>
    intro hnodup p
    have hxy : y.key ≠ x.key := by
      simp only [List.map_cons, List.nodup_cons] at hnodup
      intro h
      exact hnodup.1 (by simp [h])
    simp only [List.foldl_cons]
    rw [coeffStep_comm p y x hxy]
  | trans h1 h2 ih1 ih2 =>
    intro hnodup p
    rw [ih1 hnodup p, ih2 (((h1.map Row.key).nodup_iff).mp hnodup) p]

/-- C7 counterexample: the two rows `(2,0,1,0)` and `(2,0,2,0)` share the
placement key `(2,0)`; the two orders of this row set are both sorted by
degree and are permutations of each other, yet the later row overwrites the
earlier one, so the built `cnm` matrices differ (`2` versus `1` at `[2][0]`). -/
theorem coeffisort_not_perm_invariant :
    [((2 : ℕ), (0 : ℕ), (1 : ℝ), (0 : ℝ)), (2, 0, 2, 0)].Perm
        [((2 : ℕ), (0 : ℕ), (2 : ℝ), (0 : ℝ)), (2, 0, 1, 0)] ∧
    List.Pairwise (fun a b : Row => a.deg ≤ b.deg)
        [((2 : ℕ), (0 : ℕ), (1 : ℝ), (0 : ℝ)), (2, 0, 2, 0)] ∧
    List.Pairwise (fun a b : Row => a.deg ≤ b.deg)
        [((2 : ℕ), (0 : ℕ), (2 : ℝ), (0 : ℝ)), (2, 0, 1, 0)] ∧
    (coeffisort [((2 : ℕ), (0 : ℕ), (1 : ℝ), (0 : ℝ)), (2, 0, 2, 0)] 2).1 2 0 = 2 ∧
    (coeffisort [((2 : ℕ), (0 : ℕ), (2 : ℝ), (0 : ℝ)), (2, 0, 1, 0)] 2).1 2 0 = 1 ∧
    coeffisort [((2 : ℕ), (0 : ℕ), (1 : ℝ), (0 : ℝ)), (2, 0, 2, 0)] 2 ≠
      coeffisort [((2 : ℕ), (0 : ℕ), (2 : ℝ), (0 : ℝ)), (2, 0, 1, 0)] 2 := by
  have h1 : (coeffisort [((2 : ℕ), (0 : ℕ), (1 : ℝ), (0 : ℝ)),
      (2, 0, 2, 0)] 2).1 2 0 = 2 := by
    norm_num [coeffisort, coeffisortAux, coeffStep, mupd, Row.deg, Row.ord,
      Row.cval]
  have h2 : (coeffisort [((2 : ℕ), (0 : ℕ), (2 : ℝ), (0 : ℝ)),
      (2, 0, 1, 0)] 2).1 2 0 = 1 := by
    norm_num [coeffisort, coeffisortAux, coeffStep, mupd, Row.deg, Row.ord,
      Row.cval]
  refine ⟨List.Perm.swap _ _ _, ?_, ?_, h1, h2, ?_⟩
  · norm_num [List.pairwise_cons, Row.deg]
  · norm_num [List.pairwise_cons, Row.deg]
  · intro h
    have := congrFun (congrFun (congrArg Prod.fst h) 2) 0
    rw [h1, h2] at this
    norm_num at this

/-- C7 amended: two sorted row sequences that are permutations of each other
and in which no two rows share the same `(degree, order)` key build
identical coefficient matrices. -/
theorem coeffisort_perm_invariant (maxdegree : ℕ) (l1 l2 : List Row)
    (hperm : l1.Perm l2)
    (hs1 : l1.Pairwise (fun a b => a.deg ≤ b.deg))
    (hs2 : l2.Pairwise (fun a b => a.deg ≤ b.deg))
    (hkeys : (l1.map Row.key).Nodup) :
    coeffisort l1 maxdegree = coeffisort l2 maxdegree := by
  rw [coeffisort, coeffisort, coeffisortAux_eq_foldl, coeffisortAux_eq_foldl,
    takeWhile_eq_filter_of_sorted maxdegree l1 hs1,
    takeWhile_eq_filter_of_sorted maxdegree l2 hs2]
  refine foldl_coeffStep_perm (hperm.filter (degLE maxdegree)) ?_ _
  exact hkeys.sublist ((List.filter_sublist l1).map Row.key)

/-- C7 amended witness: the distinct-key rows `(2,0,1,0)` and `(2,1,5,5)` in
both orders. -/
theorem coeffisort_perm_invariant_witness :
    [((2 : ℕ), (0 : ℕ), (1 : ℝ), (0 : ℝ)), (2, 1, 5, 5)].Perm
        [((2 : ℕ), (1 : ℕ), (5 : ℝ), (5 : ℝ)), (2, 0, 1, 0)] ∧
    coeffisort [((2 : ℕ), (0 : ℕ), (1 : ℝ), (0 : ℝ)), (2, 1, 5, 5)] 2 =
      coeffisort [((2 : ℕ), (1 : ℕ), (5 : ℝ), (5 : ℝ)), (2, 0, 1, 0)] 2 :=
  ⟨List.Perm.swap _ _ _,
    coeffisort_perm_invariant 2 _ _ (List.Perm.swap _ _ _)
      (by norm_num [List.pairwise_cons, Row.deg])
      (by norm_num [List.pairwise_cons, Row.deg])
      (by simp [Row.key])⟩

/-- The fixed `(degree, Love number)` reference table `kl` embedded in
`LoveNumbers` (PREM Earth model, after Wahr 2007). -/
def kl : List (ℚ × ℚ) :=
  [(2, -303/1000), (3, -194/1000), (4, -132/1000), (5, -104/1000),
   (6, -89/1000), (7, -81/1000), (8, -76/1000), (9, -72/1000),
   (10, -69/1000), (12, -64/1000), (15, -58/1000), (20, -51/1000),
   (30, -40/1000), (40, -33/1000), (50, -27/1000), (70, -20/1000),
   (100, -14/1000), (150, -10/1000), (200, -7/1000)]

/-- `np.interp(x, xp, fp)` for a table of strictly increasing sample points:
clamp to the first value below the first sample and to the last value above
the last sample, linear in between. -/
def npInterp (x : ℚ) : List (ℚ × ℚ) → ℚ
  | [] => 0
  | [p] => p.2
  | p :: q :: rest =>
    if x ≤ p.1 then p.2
    else if x ≤ q.1 then p.2 + (q.2 - p.2) * (x - p.1) / (q.1 - p.1)
    else npInterp x (q :: rest)

/-- `LoveNumbers(maxdegree)`: interpolate the table at the integer degrees
`np.arange(2, maxdegree+1)` and prepend zeros for degrees 0 and 1
(`np.insert(erg, 0, [0, 0])`). -/
def LoveNumbers (maxdegree : ℕ) : List ℚ :=
  0 :: 0 :: (List.range' 2 (maxdegree - 1)).map (fun n : ℕ => npInterp (n : ℚ) kl)

theorem kl_pairwise : kl.Pairwise (fun u v : ℚ × ℚ => u.1 < v.1) := by
  norm_num [kl, List.pairwise_cons]

theorem npInterp_segment (x : ℚ) :
    ∀ (pre : List (ℚ × ℚ)) (p q : ℚ × ℚ) (post : List (ℚ × ℚ)),
      (pre ++ p :: q :: post).Pairwise (fun u v : ℚ × ℚ => u.1 < v.1) →
      p.1 ≤ x → x ≤ q.1 →
      npInterp x (pre ++ p :: q :: post) =
        p.2 + (q.2 - p.2) * (x - p.1) / (q.1 - p.1) := by
  intro pre
  induction pre with
  | nil =>
    intro p q post hpw hpx hxq
    have hpq : p.1 < q.1 := (List.pairwise_cons.mp hpw).1 q (by simp)
    by_cases hx0 : x ≤ p.1
    · have hxp : x = p.1 := le_antisymm hx0 hpx
      simp [npInterp, hx0, hxp]
    · simp [npInterp, hx0, hxq]
  | cons a pre ih =>
    intro p q post hpw hpx hxq
    have hmem : p ∈ pre ++ p :: q :: post := by simp
    have hap : a.1 < p.1 := (List.pairwise_cons.mp hpw).1 p hmem
    have hxa : ¬ x ≤ a.1 := by push_neg; linarith
    have htail := (List.pairwise_cons.mp hpw).2
    cases pre with
    | nil =>
      have hpq : p.1 < q.1 := (List.pairwise_cons.mp htail).1 q (by simp)
      by_cases hx1 : x ≤ p.1
      · have hxp : x = p.1 := le_antisymm hx1 hpx
        have hne : p.1 - a.1 ≠ 0 := sub_ne_zero.mpr (ne_of_gt hap)
        simp only [List.nil_append, List.cons_append, npInterp, if_neg hxa,
          if_pos hx1]
        rw [hxp, mul_div_assoc, div_self hne]
        ring
      · simp only [List.nil_append, List.cons_append, npInterp, if_neg hxa,
          if_neg hx1]
        simp [npInterp, hx1, hxq]
    | cons b pre2 =>
      have hbp : b.1 < p.1 := (List.pairwise_cons.mp htail).1 p (by simp)
      have hxb : ¬ x ≤ b.1 := by push_neg; linarith
      simp only [List.cons_append, npInterp, if_neg hxa, if_neg hxb]
      simpa [npInterp, hxb] using ih p q post htail hpx hxq

theorem npInterp_far_right (x : ℚ) :
    ∀ (pre : List (ℚ × ℚ)) (p : ℚ × ℚ),
      (∀ r ∈ pre ++ [p], r.1 < x) →
      npInterp x (pre ++ [p]) = p.2 := by
  intro pre
  induction pre with
  | nil => intro p _; simp [npInterp]
  | cons a pre ih =>
    intro p hall
    have hxa : ¬ x ≤ a.1 := by
      push_neg
      exact hall a (by simp)
    cases pre with
    | nil =>
      have hxp : ¬ x ≤ p.1 := by
        push_neg
        exact hall p (by simp)
      simp [npInterp, hxa, hxp]
    | cons b pre2 =>
      have hxb : ¬ x ≤ b.1 := by
        push_neg
        exact hall b (by simp)
      simp only [List.cons_append, npInterp, if_neg hxa, if_neg hxb]
      have := ih p (fun r hr => hall r (List.mem_cons_of_mem a hr))
      simpa [npInterp, hxb] using this

theorem LoveNumbers_getD (maxdegree n : ℕ) (h2 : 2 ≤ n) (hn : n ≤ maxdegree) :
    (LoveNumbers maxdegree).getD n 0 = npInterp (n : ℚ) kl := by
  obtain ⟨k, rfl⟩ : ∃ k, n = k + 2 := ⟨n - 2, by omega⟩
  have hk : k < maxdegree - 1 := by omega
  have hstep : (LoveNumbers maxdegree).getD (k + 2) 0 =
      ((List.range' 2 (maxdegree - 1)).map
        (fun n : ℕ => npInterp (n : ℚ) kl)).getD k 0 := rfl
  rw [hstep, List.getD_eq_getElem?_getD, List.getElem?_map,
    List.getElem?_range' 2 1 hk]
  norm_num [add_comm]

/-- C6: for `maxdegree ≥ 2` the Love-number vector has length `maxdegree+1`,
zeros at degrees 0 and 1, the value at each degree `2 ≤ n ≤ maxdegree` is the
table interpolant at `n`, the interpolant on each table segment is the linear
formula, and above degree 200 it clamps to the last value `-0.007`. -/
theorem LoveNumbers_spec (maxdegree : ℕ) (h : 2 ≤ maxdegree) :
    (LoveNumbers maxdegree).length = maxdegree + 1 ∧
    (LoveNumbers maxdegree).getD 0 0 = 0 ∧
    (LoveNumbers maxdegree).getD 1 0 = 0 ∧
    (∀ n : ℕ, 2 ≤ n → n ≤ maxdegree →
      (LoveNumbers maxdegree).getD n 0 = npInterp (n : ℚ) kl) ∧
    (∀ (n : ℕ) (pre post : List (ℚ × ℚ)) (p q : ℚ × ℚ),
      kl = pre ++ p :: q :: post → p.1 ≤ (n : ℚ) → (n : ℚ) ≤ q.1 →
      npInterp (n : ℚ) kl =
        p.2 + (q.2 - p.2) * ((n : ℚ) - p.1) / (q.1 - p.1)) ∧
    (∀ n : ℕ, 200 < n → npInterp (n : ℚ) kl = -7/1000) := by
  refine ⟨?_, rfl, rfl, fun n h2 hn => LoveNumbers_getD maxdegree n h2 hn,
    ?_, ?_⟩
  · rw [LoveNumbers, List.length_cons, List.length_cons, List.length_map,
      List.length_range']
    omega
  · intro n pre post p q hdecomp hpx hxq
    rw [hdecomp]
    exact npInterp_segment _ pre p q post (hdecomp ▸ kl_pairwise) hpx hxq
  · intro n hn
    have h200 : (200 : ℚ) < (n : ℚ) := by exact_mod_cast hn
    have hall : ∀ r ∈ kl, r.1 < (n : ℚ) := by
      intro r hr
      fin_cases hr <;> norm_num <;> linarith
    have hdec : kl =
        [((2 : ℚ), (-303/1000 : ℚ)), (3, -194/1000), (4, -132/1000),
         (5, -104/1000), (6, -89/1000), (7, -81/1000), (8, -76/1000),
         (9, -72/1000), (10, -69/1000), (12, -64/1000), (15, -58/1000),
         (20, -51/1000), (30, -40/1000), (40, -33/1000), (50, -27/1000),
         (70, -20/1000), (100, -14/1000), (150, -10/1000)] ++
        [((200 : ℚ), (-7/1000 : ℚ))] := rfl
    rw [hdec]
    exact npInterp_far_right _ _ _ (hdec ▸ hall)

/-- C6 witness: the Love-number vector at `maxdegree = 2`. -/
theorem LoveNumbers_spec_witness :
    (LoveNumbers 2).length = 2 + 1 ∧
    (LoveNumbers 2).getD 0 0 = 0 ∧
    (LoveNumbers 2).getD 1 0 = 0 ∧
    (∀ n : ℕ, 2 ≤ n → n ≤ 2 →
      (LoveNumbers 2).getD n 0 = npInterp (n : ℚ) kl) ∧
    (∀ (n : ℕ) (pre post : List (ℚ × ℚ)) (p q : ℚ × ℚ),
      kl = pre ++ p :: q :: post → p.1 ≤ (n : ℚ) → (n : ℚ) ≤ q.1 →
      npInterp (n : ℚ) kl =
        p.2 + (q.2 - p.2) * ((n : ℚ) - p.1) / (q.1 - p.1)) ∧
    (∀ n : ℕ, 200 < n → npInterp (n : ℚ) kl = -7/1000) :=
  LoveNumbers_spec 2 (by norm_num)

/-- C9 counterexample: for `maxdegree = 0` and `maxdegree = 1` the generator
returns normally (the value `[0, 0]`); no failure of any kind occurs. -/
theorem LoveNumbers_small_returns :
    LoveNumbers 0 = [0, 0] ∧ LoveNumbers 1 = [0, 0] :=
  ⟨rfl, rfl⟩

/-- C9 amended: for every `maxdegree < 2` the generator does not fail: it
returns `[0, 0]` (length 2, the two prepended zeros over an empty
interpolation range). -/
theorem LoveNumbers_small_amended (maxdegree : ℕ) (h : maxdegree < 2) :
    LoveNumbers maxdegree = [0, 0] := by
  interval_cases maxdegree <;> rfl

/-- C9 amended witness at `maxdegree = 1`. -/
theorem LoveNumbers_small_amended_witness :
    1 < 2 ∧ LoveNumbers 1 = [0, 0] :=
  ⟨by norm_num, LoveNumbers_small_amended 1 (by norm_num)⟩

/-- Contents of the recursion-coefficient table `LF1` built by
`LegendreFunctions.__init__`: `LF1[1,1] = √3`, `LF1[n,n] = √((2n+1)/(2n))`
for `2 ≤ n ≤ maxdegree`, and `LF1[n,m] = √((2n+1)/((n+m)(n−m)) · (2n−1))`
for `m < n ≤ maxdegree`; entries never written stay `0`. -/
noncomputable def LF1 (maxdegree : ℕ) (n m : ℕ) : ℝ :=
  if maxdegree < n ∨ maxdegree < m then 0
  else if n = 1 ∧ m = 1 then Real.sqrt 3
  else if 2 ≤ n ∧ m = n then Real.sqrt ((2 * (n : ℝ) + 1) / (2 * (n : ℝ)))
  else if m < n then
    Real.sqrt ((2 * (n : ℝ) + 1) / (((n : ℝ) + m) * ((n : ℝ) - m)) *
      (2 * (n : ℝ) - 1))
  else 0

/-- Contents of the table `LF2` built by `LegendreFunctions.__init__`:
`LF2[n,m] = √((2n+1)/((n+m)(n−m)) · (n−m−1)(n+m−1)/(2n−3))` for
`m < n ≤ maxdegree`; entries never written stay `0`. -/
noncomputable def LF2 (maxdegree : ℕ) (n m : ℕ) : ℝ :=
  if maxdegree < n ∨ maxdegree < m then 0
  else if m < n then
    Real.sqrt ((2 * (n : ℝ) + 1) / (((n : ℝ) + m) * ((n : ℝ) - m)) *
      ((n : ℝ) - m - 1) * ((n : ℝ) + m - 1) / (2 * (n : ℝ) - 3))
  else 0

/-- `LegendreFunctions.__call__(theta)`: the value `Pnm[n, m]` of the filled
matrix.  `Pnm[0,0] = 1`; the diagonal recursion is seeded by `sin θ`, the
first sub-diagonal and the general three-term recursion by `cos θ`; entries
never written (`m > n` or out of the array) stay `0`. -/
noncomputable def legendreP (maxdegree : ℕ) (θ : ℝ) : ℕ → ℕ → ℝ
  | n, m =>
    if maxdegree < n ∨ maxdegree < m then 0
    else if n < m then 0
    else if _hn0 : n = 0 then 1
    else if n = m then
      LF1 maxdegree n n * Real.sin θ * legendreP maxdegree θ (n - 1) (n - 1)
    else if _hsub : n = m + 1 then
      LF1 maxdegree n m * Real.cos θ * legendreP maxdegree θ m m
    else
      LF1 maxdegree n m * Real.cos θ * legendreP maxdegree θ (n - 1) m -
        LF2 maxdegree n m * legendreP maxdegree θ (n - 2) m
termination_by n _m => n
decreasing_by all_goals omega

/-- The Legendre value matrix returned by one evaluation, as a list of rows. -/
noncomputable def legendrePMat (maxdegree : ℕ) (θ : ℝ) : List (List ℝ) :=
  (List.range (maxdegree + 1)).map fun n =>
    (List.range (maxdegree + 1)).map fun m => legendreP maxdegree θ n m

/-- The `(row, column)` store indices executed by
`LegendreFunctions.__init__(maxdegree)` on its `(maxdegree+1)²` arrays, in
program order: the unconditional `LF1[1,1]` store, the diagonal loop, and
the double loop over `m < n`. -/
def legendreInitWrites (maxdegree : ℕ) : List (ℕ × ℕ) :=
  (1, 1) :: ((List.range' 2 (maxdegree - 1)).map fun n => (n, n)) ++
    ((List.range maxdegree).flatMap fun m =>
      (List.range' (m + 1) (maxdegree - m)).map fun n => (n, m))

/-- The `(row, column)` store indices executed by
`LegendreFunctions.__call__` on the `(maxdegree+1)²` output array. -/
def legendreCallWrites (maxdegree : ℕ) : List (ℕ × ℕ) :=
  (0, 0) :: ((List.range' 1 maxdegree).map fun n => (n, n)) ++
    ((List.range maxdegree).map fun m => (m + 1, m)) ++
    ((List.range maxdegree).flatMap fun m =>
      (List.range' (m + 2) (maxdegree - m - 1)).map fun n => (n, m))

/-- A list of store indices stays inside a square array of side `size`. -/
def writesInBounds (size : ℕ) (l : List (ℕ × ℕ)) : Bool :=
  l.all fun p => p.1 < size && p.2 < size

theorem legendreP_zero_of_lt (maxdegree : ℕ) (θ : ℝ) {n m : ℕ} (h : n < m) :
    legendreP maxdegree θ n m = 0 := by
  rw [legendreP]
  by_cases h1 : maxdegree < n ∨ maxdegree < m
  · simp [h1]
  · simp [h1, h]

/-- C3: at the equator `θ = π/2` every Legendre entry with `n − m` odd
vanishes, for every engine of maximum degree between 2 and 20. -/
theorem legendreP_equator (maxdegree : ℕ) (h2 : 2 ≤ maxdegree)
    (h20 : maxdegree ≤ 20) :
    ∀ n m : ℕ, m ≤ n → n ≤ maxdegree → Odd (n - m) →
      legendreP maxdegree (Real.pi / 2) n m = 0 := by
  intro n
  induction n using Nat.strong_induction_on with
  | _ n ih =>
    intro m hmn hn hodd
    have hk : (n - m) % 2 = 1 := Nat.odd_iff.mp hodd
    have hg1 : ¬ (maxdegree < n ∨ maxdegree < m) := by omega
    have hg2 : ¬ n < m := by omega
    have hg3 : ¬ n = 0 := by omega
    have hd : ¬ n = m := by omega
    rw [legendreP, if_neg hg1, if_neg hg2, dif_neg hg3, if_neg hd]
    by_cases hs : n = m + 1
    · rw [dif_pos hs, Real.cos_pi_div_two]
      ring
    · rw [dif_neg hs, Real.cos_pi_div_two]
      have hrec : legendreP maxdegree (Real.pi / 2) (n - 2) m = 0 :=
        ih (n - 2) (by omega) m (by omega) (by omega)
          (Nat.odd_iff.mpr (by omega))
      rw [hrec]
      ring

/-- C3 witness: `maxdegree = 2`, entry `(n, m) = (2, 1)`. -/
theorem legendreP_equator_witness :
    2 ≤ 2 ∧ 2 ≤ 20 ∧ (1 : ℕ) ≤ 2 ∧ Odd (2 - 1) ∧
      legendreP 2 (Real.pi / 2) 2 1 = 0 :=
  ⟨le_refl 2, by norm_num, by norm_num, by decide,
    legendreP_equator 2 (le_refl 2) (by norm_num) 2 1 (by norm_num)
      (le_refl 2) (by decide)⟩

/-- C5 counterexample: for `maxdegree = 0` the constructor performs the
unconditional store `LF1[1,1] = √3`, an index outside its `1 × 1` arrays
(an `IndexError` in the source), so construction does not succeed. -/
theorem legendreInit_oob_maxdeg_zero :
    (1, 1) ∈ legendreInitWrites 0 ∧
      writesInBounds (0 + 1) (legendreInitWrites 0) = false := by
  constructor
  · simp [legendreInitWrites]
  · rfl

/-- C5 amended: for every `maxdegree ≥ 1` (so in particular `maxdegree = 1`,
but not `maxdegree = 0`) all constructor and evaluation stores are inside
the `(maxdegree+1)²` arrays, and evaluation at any colatitude yields a
`(maxdegree+1) × (maxdegree+1)` matrix with `Pnm[0][0] = 1`. -/
theorem legendre_engine_safe (maxdegree : ℕ) (h : 1 ≤ maxdegree) :
    writesInBounds (maxdegree + 1) (legendreInitWrites maxdegree) = true ∧
    writesInBounds (maxdegree + 1) (legendreCallWrites maxdegree) = true ∧
    ∀ θ : ℝ,
      (legendrePMat maxdegree θ).length = maxdegree + 1 ∧
      (∀ row ∈ legendrePMat maxdegree θ, row.length = maxdegree + 1) ∧
      legendreP maxdegree θ 0 0 = 1 := by
  refine ⟨?_, ?_, ?_⟩
  · simp only [writesInBounds, List.all_eq_true]
    intro p hp
    simp only [legendreInitWrites, List.mem_cons, List.mem_append,
      List.mem_map, List.mem_flatMap, List.mem_range', List.mem_range] at hp
    simp only [Bool.and_eq_true, decide_eq_true_eq]
    rcases hp with (rfl | ⟨n, hn, rfl⟩) | ⟨m, hm, n, hn, rfl⟩
    · omega
    · obtain ⟨i, hi, rfl⟩ := hn
      omega
    · obtain ⟨i, hi, rfl⟩ := hn
      omega
  · simp only [writesInBounds, List.all_eq_true]
    intro p hp
    simp only [legendreCallWrites, List.mem_cons, List.mem_append,
      List.mem_map, List.mem_flatMap, List.mem_range', List.mem_range] at hp
    simp only [Bool.and_eq_true, decide_eq_true_eq]
    rcases hp with ((rfl | ⟨n, hn, rfl⟩) | ⟨m, hm, rfl⟩) | ⟨m, hm, n, hn, rfl⟩
    · omega
    · obtain ⟨i, hi, rfl⟩ := hn
      omega
    · omega
    · obtain ⟨i, hi, rfl⟩ := hn
      omega
  · intro θ
    refine ⟨by simp [legendrePMat], ?_, ?_⟩
    · intro row hrow
      simp only [legendrePMat, List.mem_map] at hrow
      obtain ⟨n, _, rfl⟩ := hrow
      simp
    · rw [legendreP]
      simp

/-- C5 amended witness at `maxdegree = 1`. -/
theorem legendre_engine_safe_witness :
    1 ≤ 1 ∧
    (writesInBounds (1 + 1) (legendreInitWrites 1) = true ∧
     writesInBounds (1 + 1) (legendreCallWrites 1) = true ∧
     ∀ θ : ℝ,
       (legendrePMat 1 θ).length = 1 + 1 ∧
       (∀ row ∈ legendrePMat 1 θ, row.length = 1 + 1) ∧
       legendreP 1 θ 0 0 = 1) :=
  ⟨le_refl 1, legendre_engine_safe 1 (le_refl 1)⟩

/-- `waterheight(lambdao, thetao, cnm, snm, deg_max, lf, kn, R)`: the
returned row `ewh`.  `ewh[0,0] = thetao`; for each longitude the summand of
`sumo` is `mfak[n,m] * mt3[n,m]` with `mfak = (2*deg_mat+1)/(1+kn_mat)` and
`mt3 = Pnm*(cnm*cos(long*ord_mat) + snm*sin(long*ord_mat))`, summed over the
row slice `[2:,:]`, i.e. degrees `2..deg_max` and all orders `0..deg_max`. -/
noncomputable def waterheight (lambdao : List ℝ) (thetao : ℝ)
    (cnm snm : ℕ → ℕ → ℝ) (deg_max : ℕ) (lf : ℝ → ℕ → ℕ → ℝ) (kn : ℕ → ℝ)
    (R : ℝ := 6378136.460) : List ℝ :=
  let rho_e : ℝ := 5540
  let rho_w : ℝ := 1000
  let Pnm := lf thetao
  thetao :: lambdao.map fun long =>
    R * rho_e / (3 * rho_w) *
      ∑ n ∈ Finset.Icc 2 deg_max, ∑ m ∈ Finset.range (deg_max + 1),
        (2 * (n : ℝ) + 1) / (1 + kn n) *
          (Pnm n m *
            (cnm n m * Real.cos (long * m) + snm n m * Real.sin (long * m)))

/-- C1: with the Legendre matrix produced by the engine at `thetao`, the
returned row is `thetao` followed by, per longitude, the EWH series
`(R·5540)/(3·1000) · Σ_{n=2..deg_max} Σ_{m=0..n} (2n+1)/(1+kn[n]) ·
(ΔC·cos(mλ) + ΔS·sin(mλ)) · Pnm[n][m]`; the inner sum may stop at `m = n`
because the engine matrix vanishes above the diagonal, and degrees 0 and 1
contribute nothing. -/
theorem waterheight_formula (deg_max : ℕ) (_h2 : 2 ≤ deg_max)
    (lambdao : List ℝ) (thetao : ℝ) (cnm snm : ℕ → ℕ → ℝ) (kn : ℕ → ℝ)
    (R : ℝ) :
    waterheight lambdao thetao cnm snm deg_max (legendreP deg_max) kn R =
      thetao :: lambdao.map fun long =>
        R * 5540 / (3 * 1000) *
          ∑ n ∈ Finset.Icc 2 deg_max, ∑ m ∈ Finset.range (n + 1),
            (2 * (n : ℝ) + 1) / (1 + kn n) *
              (cnm n m * Real.cos (long * m) + snm n m * Real.sin (long * m)) *
              legendreP deg_max thetao n m := by
  unfold waterheight
  refine congrArg _ (List.map_congr_left fun long _ => ?_)
  refine congrArg _ (Finset.sum_congr rfl fun n hn => ?_)
  have hnle : n ≤ deg_max := (Finset.mem_Icc.mp hn).2
  calc
    ∑ m ∈ Finset.range (deg_max + 1),
        (2 * (n : ℝ) + 1) / (1 + kn n) *
          (legendreP deg_max thetao n m *
            (cnm n m * Real.cos (long * m) + snm n m * Real.sin (long * m)))
      = ∑ m ∈ Finset.range (deg_max + 1),
          (2 * (n : ℝ) + 1) / (1 + kn n) *
            (cnm n m * Real.cos (long * m) + snm n m * Real.sin (long * m)) *
            legendreP deg_max thetao n m :=
        Finset.sum_congr rfl fun m _ => by ring
    _ = ∑ m ∈ Finset.range (n + 1),
          (2 * (n : ℝ) + 1) / (1 + kn n) *
            (cnm n m * Real.cos (long * m) + snm n m * Real.sin (long * m)) *
            legendreP deg_max thetao n m := by
        refine (Finset.sum_subset (Finset.range_subset.mpr (by omega)) ?_).symm
        intro m _ hm
        rw [legendreP_zero_of_lt deg_max thetao (by
          simpa using Finset.mem_range.not.mp hm), mul_zero]

/-- C1 witness at `deg_max = 2`, a single longitude `0`, zero coefficients. -/
theorem waterheight_formula_witness :
    2 ≤ 2 ∧
    waterheight [0] 0 (fun _ _ => 0) (fun _ _ => 0) 2 (legendreP 2)
        (fun _ => 0) 1 =
      0 :: [(0 : ℝ)].map fun long =>
        1 * 5540 / (3 * 1000) *
          ∑ n ∈ Finset.Icc 2 2, ∑ m ∈ Finset.range (n + 1),
            (2 * (n : ℝ) + 1) / (1 + 0) *
              (0 * Real.cos (long * m) + 0 * Real.sin (long * m)) *
              legendreP 2 0 n m :=
  ⟨le_refl 2,
    waterheight_formula 2 (le_refl 2) [0] 0 (fun _ _ => 0) (fun _ _ => 0)
      (fun _ => 0) 1⟩

/-- C10: two coefficient-matrix pairs that agree at all positions with
`m ≤ n` (and may differ above the diagonal) give identical `waterheight`
rows, because the engine Legendre matrix vanishes at every `m > n`. -/
theorem waterheight_upper_triangle (deg_max : ℕ) (lambdao : List ℝ)
    (thetao : ℝ) (kn : ℕ → ℝ) (R : ℝ) (cnm snm cnm2 snm2 : ℕ → ℕ → ℝ)
    (hc : ∀ n m : ℕ, m ≤ n → cnm n m = cnm2 n m)
    (hs : ∀ n m : ℕ, m ≤ n → snm n m = snm2 n m) :
    (∀ n m : ℕ, n < m → legendreP deg_max thetao n m = 0) ∧
    waterheight lambdao thetao cnm snm deg_max (legendreP deg_max) kn R =
      waterheight lambdao thetao cnm2 snm2 deg_max (legendreP deg_max) kn R := by
  refine ⟨fun n m hnm => legendreP_zero_of_lt deg_max thetao hnm, ?_⟩
  unfold waterheight
  refine congrArg _ (List.map_congr_left fun long _ => ?_)
  refine congrArg _ (Finset.sum_congr rfl fun n _ => ?_)
  refine Finset.sum_congr rfl fun m _ => ?_
  by_cases hmn : m ≤ n
  · rw [hc n m hmn, hs n m hmn]
  · rw [legendreP_zero_of_lt deg_max thetao (show n < m by omega)]
    ring

/-- The recursion of `GaussFilterCoeff` for a given seed term `b`:
`coeff[0] = 1`, `coeff[1] = (1+e^{-b})/(1-e^{-2b}) - 1/b`,
`coeff[n] = -((2n-1)/b)·coeff[n-1] + coeff[n-2]`. -/
noncomputable def gaussRec (b : ℝ) : ℕ → ℝ
  | 0 => 1
  | 1 => (1 + Real.exp (-1 * b)) / (1 - Real.exp (-2 * b)) - 1 / b
  | n + 2 =>
    -((2 * ((n : ℝ) + 2) - 1) / b) * gaussRec b (n + 1) + gaussRec b n

/-- `GaussFilterCoeff(R, fr, maxdegree)`: Gaussian filter coefficients with
seed `b = ln 2 / (1 - cos(fr / R))` (Wahr, Molenaar and Bryan 1998). -/
noncomputable def GaussFilterCoeff (R fr : ℝ) (maxdegree : ℕ) : List ℝ :=
  let b := Real.log 2 / (1 - Real.cos (fr / R))
  (List.range (maxdegree + 1)).map (gaussRec b)

/-- The filter-radius dispatch of `example.py` (lines 77-81): for
`filterradius > 0` the weights come from `GaussFilterCoeff`, otherwise the
weight vector is `np.ones((deg_max+1, 1))`; this is the per-degree weight
vector before its order-wise replication by `np.outer`. -/
noncomputable def filter_coeff (R fr : ℝ) (maxdegree : ℕ) : List ℝ :=
  if 0 < fr then GaussFilterCoeff R fr maxdegree
  else List.replicate (maxdegree + 1) 1

/-- C2: with filter radius `fr = 0` (or any `fr ≤ 0`) the filter-coefficient
vector is all ones of length `maxdegree + 1`; the `fr > 0` guard means the
log-based seed `b` of `GaussFilterCoeff` is never evaluated on this path. -/
theorem filter_coeff_no_smoothing (R fr : ℝ) (maxdegree : ℕ) (h : fr ≤ 0) :
    filter_coeff R fr maxdegree = List.replicate (maxdegree + 1) 1 ∧
    (filter_coeff R fr maxdegree).length = maxdegree + 1 ∧
    ∀ x ∈ filter_coeff R fr maxdegree, x = 1 := by
  have hn : ¬ 0 < fr := not_lt.mpr h
  refine ⟨by simp [filter_coeff, hn], by simp [filter_coeff, hn], ?_⟩
  intro x hx
  simp [filter_coeff, hn] at hx
  exact hx

/-- C2 witness: `R = 6378.136`, `fr = 0`, `maxdegree = 90`. -/
theorem filter_coeff_no_smoothing_witness :
    (0 : ℝ) ≤ 0 ∧
    (filter_coeff 6378.136 0 90 = List.replicate (90 + 1) 1 ∧
     (filter_coeff 6378.136 0 90).length = 90 + 1 ∧
     ∀ x ∈ filter_coeff 6378.136 0 90, x = 1) :=
  ⟨le_refl 0, filter_coeff_no_smoothing 6378.136 0 90 (le_refl 0)⟩

/-- C10 witness: second pair differs only above the diagonal (value 7). -/
theorem waterheight_upper_triangle_witness :
    (∀ n m : ℕ, m ≤ n →
      (0 : ℝ) = (if m ≤ n then (0 : ℝ) else 7)) ∧
    (∀ n m : ℕ, n < m → legendreP 2 0 n m = 0) ∧
    waterheight [0] 0 (fun _ _ => 0) (fun _ _ => 0) 2 (legendreP 2)
        (fun _ => 0) 1 =
      waterheight [0] 0 (fun n m => if m ≤ n then (0 : ℝ) else 7)
        (fun n m => if m ≤ n then (0 : ℝ) else 7) 2 (legendreP 2)
        (fun _ => 0) 1 :=
  ⟨fun n m hmn => by simp [hmn],
    waterheight_upper_triangle 2 [0] 0 (fun _ => 0) 1 _ _ _ _
      (fun n m hmn => by simp [hmn]) (fun n m hmn => by simp [hmn])⟩

/-- Error classification of a `waterheight` run.  `broadcastError` is the
numpy `ValueError` raised by an incompatible element-wise operation;
`dimensionError` is the spec's `DimensionError` taxonomy entry, present in
the model only so the claimed behaviour can be stated — no code path
produces it. -/
inductive PyErr where
  | broadcastError
  | dimensionError
deriving DecidableEq

/-- A numpy 2-D array: its shape and its entries. -/
structure Arr where
  rows : ℕ
  cols : ℕ
  entry : ℕ → ℕ → ℝ

/-- numpy broadcast compatibility of one axis pair. -/
def bcompat (a b : ℕ) : Bool := a == b || a == 1 || b == 1

/-- A binary element-wise numpy operation with 2-D broadcasting: size-1 axes
are stretched; incompatible shapes raise. -/
def npBroadcast (op : ℝ → ℝ → ℝ) (x y : Arr) : Except PyErr Arr :=
  if bcompat x.rows y.rows && bcompat x.cols y.cols then
    .ok ⟨max x.rows y.rows, max x.cols y.cols, fun i j =>
      op (x.entry (if x.rows = 1 then 0 else i) (if x.cols = 1 then 0 else j))
        (y.entry (if y.rows = 1 then 0 else i) (if y.cols = 1 then 0 else j))⟩
  else .error .broadcastError

/-- A unary element-wise numpy operation (scalar op or `np.cos`/`np.sin`). -/
def npMap (f : ℝ → ℝ) (x : Arr) : Arr :=
  ⟨x.rows, x.cols, fun i j => f (x.entry i j)⟩

/-- `np.transpose`. -/
def npTranspose (x : Arr) : Arr := ⟨x.cols, x.rows, fun i j => x.entry j i⟩

/-- `np.outer(np.ones((deg_max+1,1)), np.arange(0, deg_max+1))`: each row is
`0, 1, ..., deg_max`. -/
noncomputable def ordMat (deg_max : ℕ) : Arr :=
  ⟨deg_max + 1, deg_max + 1, fun _ j => (j : ℝ)⟩

/-- `np.outer(kn[0:deg_max+1], np.ones((deg_max+1,1)))`: row `i` is constant
`kn[i]`; the row count is the length of the slice, which is shorter than
`deg_max+1` when `kn` is. -/
noncomputable def knMat (kn : List ℝ) (deg_max : ℕ) : Arr :=
  ⟨(kn.take (deg_max + 1)).length, deg_max + 1,
    fun i _ => (kn.take (deg_max + 1)).getD i 0⟩

/-- The row slice `x[k:, :]` (empty when `x` has at most `k` rows). -/
def npRowsFrom (k : ℕ) (x : Arr) : Arr :=
  ⟨x.rows - k, x.cols, fun i j => x.entry (i + k) j⟩

/-- `np.sum` over all entries. -/
noncomputable def npSum (x : Arr) : ℝ :=
  ∑ i ∈ Finset.range x.rows, ∑ j ∈ Finset.range x.cols, x.entry i j

/-- The `for long in lambdao` loop: evaluate each longitude in order,
propagating the first raised error. -/
def mapExcept (f : ℝ → Except PyErr ℝ) : List ℝ → Except PyErr (List ℝ)
  | [] => .ok []
  | x :: xs => do
    let v ← f x
    let rest ← mapExcept f xs
    pure (v :: rest)

/-- `waterheight` at the numpy level, with array shapes and broadcasting
tracked, so that behaviour on shape-inconsistent inputs is observable.
The error type is `PyErr`; the code performs no dimension check of its own,
so every failure comes out of a broadcast. -/
noncomputable def waterheight_np (lambdao : List ℝ) (thetao : ℝ)
    (cnm snm : Arr) (deg_max : ℕ) (lf : ℝ → Arr) (kn : List ℝ)
    (R : ℝ := 6378136.460) : Except PyErr (List ℝ) := do
  let rho_e : ℝ := 5540
  let rho_w : ℝ := 1000
  let Pnm := lf thetao
  let ord_mat := ordMat deg_max
  let deg_mat := npTranspose ord_mat
  let kn_mat := knMat kn deg_max
  let vals ← mapExcept (fun long => do
    let lam_mat := npMap (fun v => long * v) ord_mat
    let mt1 ← npBroadcast (fun u v => u * v) cnm (npMap Real.cos lam_mat)
    let mt2 ← npBroadcast (fun u v => u * v) snm (npMap Real.sin lam_mat)
    let msum ← npBroadcast (fun u v => u + v) mt1 mt2
    let mt3 ← npBroadcast (fun u v => u * v) Pnm msum
    let mfak ← npBroadcast (fun u v => u / v)
      (npMap (fun v => 2 * v + 1) deg_mat) (npMap (fun v => 1 + v) kn_mat)
    let herg ← npBroadcast (fun u v => u * v)
      (npRowsFrom 2 mfak) (npRowsFrom 2 mt3)
    pure (R * rho_e / (3 * rho_w) * npSum herg)) lambdao
  pure (thetao :: vals)

theorem npBroadcast_no_dim (op : ℝ → ℝ → ℝ) (x y : Arr) :
    npBroadcast op x y ≠ .error .dimensionError := by
  unfold npBroadcast
  by_cases h : (bcompat x.rows y.rows && bcompat x.cols y.cols) = true
  · simp [h]
  · simp [h]

theorem bind_no_dim {α β : Type} (e : Except PyErr α)
    (g : α → Except PyErr β) (he : e ≠ .error .dimensionError)
    (hg : ∀ v, g v ≠ .error .dimensionError) :
    (e >>= g) ≠ .error .dimensionError := by
  cases e with
  | error er => simpa [Bind.bind, Except.bind] using he
  | ok v => simpa [Bind.bind, Except.bind] using hg v

theorem mapExcept_no_dim (f : ℝ → Except PyErr ℝ)
    (hf : ∀ x, f x ≠ .error .dimensionError) :
    ∀ l, mapExcept f l ≠ .error .dimensionError := by
  intro l
  induction l with
  | nil => simp [mapExcept]
  | cons x xs ih =>
    show (do
      let v ← f x
      let rest ← mapExcept f xs
      pure (v :: rest) : Except PyErr (List ℝ)) ≠ .error .dimensionError
    refine bind_no_dim _ _ (hf x) fun v => ?_
    refine bind_no_dim _ _ ih fun rest => ?_
    simp [Pure.pure, Except.pure]

theorem waterheight_np_no_dim (lambdao : List ℝ) (thetao : ℝ)
    (cnm snm : Arr) (deg_max : ℕ) (lf : ℝ → Arr) (kn : List ℝ) (R : ℝ) :
    waterheight_np lambdao thetao cnm snm deg_max lf kn R ≠
      .error .dimensionError := by
  unfold waterheight_np
  refine bind_no_dim _ _ (mapExcept_no_dim _ (fun long => ?_) lambdao)
    fun vals => by simp [Pure.pure, Except.pure]
  refine bind_no_dim _ _ (npBroadcast_no_dim _ _ _) fun mt1 => ?_
  refine bind_no_dim _ _ (npBroadcast_no_dim _ _ _) fun mt2 => ?_
  refine bind_no_dim _ _ (npBroadcast_no_dim _ _ _) fun msum => ?_
  refine bind_no_dim _ _ (npBroadcast_no_dim _ _ _) fun mt3 => ?_
  refine bind_no_dim _ _ (npBroadcast_no_dim _ _ _) fun mfak => ?_
  refine bind_no_dim _ _ (npBroadcast_no_dim _ _ _) fun herg => ?_
  simp [Pure.pure, Except.pure]

theorem waterheight_np_one_by_one_ok (c : ℝ) :
    (waterheight_np [0] 0 ⟨1, 1, fun _ _ => c⟩ ⟨3, 3, fun _ _ => 0⟩ 2
      (fun θ => ⟨3, 3, legendreP 2 θ⟩) [0, 0, 0] 1).isOk = true := by
  simp [waterheight_np, mapExcept, npBroadcast, npMap, npTranspose, ordMat,
    knMat, npRowsFrom, bcompat, Bind.bind, Except.bind, Pure.pure,
    Except.pure, Except.isOk, Except.toBool]

/-- C8 counterexample: with `deg_max = 2` a `1 × 1` coefficient matrix `cnm`
(shape inconsistent with the required `3 × 3`) broadcasts against the other
arrays: the synthesis returns a silently computed row, and in particular
does not fail with a `DimensionError`. -/
theorem waterheight_np_silent_compute :
    ((⟨1, 1, fun _ _ => (5 : ℝ)⟩ : Arr).rows ≠ 2 + 1) ∧
    (waterheight_np [0] 0 ⟨1, 1, fun _ _ => (5 : ℝ)⟩ ⟨3, 3, fun _ _ => 0⟩ 2
      (fun θ => ⟨3, 3, legendreP 2 θ⟩) [0, 0, 0] 1).isOk = true ∧
    waterheight_np [0] 0 ⟨1, 1, fun _ _ => (5 : ℝ)⟩ ⟨3, 3, fun _ _ => 0⟩ 2
      (fun θ => ⟨3, 3, legendreP 2 θ⟩) [0, 0, 0] 1 ≠
      Except.error PyErr.dimensionError :=
  ⟨by norm_num, waterheight_np_one_by_one_ok 5,
    waterheight_np_no_dim [0] 0 _ _ 2 _ [0, 0, 0] 1⟩

/-- C8 amended: `waterheight` performs no shape validation.  A coefficient
matrix whose shape is inconsistent with `maxdegree` but numpy-broadcastable
(here `1 × 1` against the required `3 × 3`) produces a silently computed
result, and no run of the synthesis ever fails with the `DimensionError`
classification — the only failure the code can produce is a generic
broadcasting error. -/
theorem waterheight_np_amended :
    (∀ c : ℝ,
      (waterheight_np [0] 0 ⟨1, 1, fun _ _ => c⟩ ⟨3, 3, fun _ _ => 0⟩ 2
        (fun θ => ⟨3, 3, legendreP 2 θ⟩) [0, 0, 0] 1).isOk = true) ∧
    (∀ (lambdao : List ℝ) (thetao : ℝ) (cnm snm : Arr) (deg_max : ℕ)
        (lf : ℝ → Arr) (kn : List ℝ) (R : ℝ),
      waterheight_np lambdao thetao cnm snm deg_max lf kn R ≠
        Except.error PyErr.dimensionError) :=
  ⟨fun c => waterheight_np_one_by_one_ok c,
    fun lambdao thetao cnm snm deg_max lf kn R =>
      waterheight_np_no_dim lambdao thetao cnm snm deg_max lf kn R⟩

end EWH
